import Mathlib

/-!
Verification development for the kripke envelope-encryption module
(src/index.js).

Modelling conventions (shallow embedding):
* JavaScript strings that travel on the wire (tokens, base64 fields) are
  modelled as `List Char`; byte buffers as `List Nat`.
* The external cryptographic collaborators (crypto.pbkdf2,
  crypto.createCipheriv / createDecipheriv, crypto.createHmac, base64
  encode/decode) are a parameter `Crypto` of every operation; pbkdf2 and
  the ciphers are fallible (`Option`), mirroring the error callback of
  crypto.pbkdf2 and the try/catch around the cipher calls.
* Randomness (the fresh salt and iv of an encrypt call) is passed in as
  explicit arguments.
* Node callback-style completion is modelled by the `Outcome` type:
  `thrown e` is a synchronous exception, `cb err result` is the single
  invocation of the callback with its two arguments (each possibly
  `undefined`, hence `Option`).
* The presence of the callback argument (JavaScript checks
  typeof callback !== 'function') is the boolean argument `hasCb`.
-/

/-- Errors raised or reported by the module, one constructor per distinct
error site of src/index.js.  `bufferFromUndefined` stands for the TypeError
thrown by `new Buffer(undefined, 'base64')` when the static decrypt indexes
a missing field. -/
inductive KErr where
  | noCallback
  | missingKey
  | invalidPlainText
  | invalidCipherText
  | encodedTextInvalid
  | bufferFromUndefined
  | hmacKeyRequired
  | hmacSignatureMissing
  | hmacVerifyFailed
  | kdfFailure
  | cipherFailure
  | decipherFailure
  deriving DecidableEq, Repr

/-- Outcome of one encrypt/decrypt call: either a synchronously thrown
exception, or the single callback invocation `cb err result`. -/
inductive Outcome (α : Type) where
  | thrown (e : KErr)
  | cb (err : Option KErr) (result : Option α)
  deriving DecidableEq, Repr

/-- The option bag accepted by the constructor and the static functions.
`none` models an absent (or falsy) property. -/
structure Options where
  key : Option (List Nat) := none
  hmacKey : Option (List Nat) := none
  algorithm : Option String := none
  hmacAlgorithm : Option String := none
  iterations : Option Nat := none
  keyLength : Option Nat := none
  deriving Repr

/-- Default iteration count (src/index.js line 3). -/
def defaultIterations : Nat := 131072

/-- Effective iteration count: `options.iterations || defaultIterations`
(0 is falsy in JavaScript). -/
def effIterations (o : Options) : Nat :=
  match o.iterations with
  | none => defaultIterations
  | some n => if n = 0 then defaultIterations else n

/-- Effective cipher algorithm: `options.algorithm || 'AES-256-CBC'`
(the empty string is falsy). -/
def effAlgorithm (o : Options) : String :=
  match o.algorithm with
  | none => "AES-256-CBC"
  | some s => if s = "" then "AES-256-CBC" else s

/-- Effective hash algorithm: `options.hmacAlgorithm || 'SHA256'`. -/
def effHmacAlgorithm (o : Options) : String :=
  match o.hmacAlgorithm with
  | none => "SHA256"
  | some s => if s = "" then "SHA256" else s

/-- Effective derived-key length in bytes (src/index.js lines 30-34): a
supported keyLength (128, 192 or 256 bits) is divided by 8, anything else
falls back silently to 32 bytes. -/
def effKeyLength (o : Options) : Nat :=
  match o.keyLength with
  | none => 32
  | some n => if n = 128 ∨ n = 192 ∨ n = 256 then n / 8 else 32

/-- The private state captured by the Kripke constructor closure
(src/index.js lines 21-35). -/
structure KripkeState where
  key : List Nat
  hmacKey : Option (List Nat)
  iterations : Nat
  hmacAlgorithm : String
  keyLength : Nat
  algorithm : String
  deriving Repr, DecidableEq

/-- Decidable equality for `Except`, so that concrete verification results
can be checked by `decide`. -/
instance {ε α : Type} [DecidableEq ε] [DecidableEq α] : DecidableEq (Except ε α) :=
  fun a b =>
    match a, b with
    | .error x, .error y =>
        if h : x = y then .isTrue (congrArg Except.error h)
        else .isFalse (fun q => h (Except.error.inj q))
    | .error _, .ok _ => .isFalse Except.noConfusion
    | .ok _, .error _ => .isFalse Except.noConfusion
    | .ok x, .ok y =>
        if h : x = y then .isTrue (congrArg Except.ok h)
        else .isFalse (fun q => h (Except.ok.inj q))

/-- The Kripke constructor: throws when no key is given, otherwise captures
the effective options. -/
def mkKripke (o : Options) : Except KErr KripkeState :=
  match o.key with
  | none => .error .missingKey
  | some k =>
      .ok { key := k
            hmacKey := o.hmacKey
            iterations := effIterations o
            hmacAlgorithm := effHmacAlgorithm o
            keyLength := effKeyLength o
            algorithm := effAlgorithm o }

/-- The external cryptographic collaborators.  `pbkdf2 key salt iterations
keyLen digest` may fail (error callback); `cipher` / `decipher` take the
algorithm name, key, iv and data and may throw (modelled as `none`);
`hmac` takes the hash algorithm, the key and the message characters. -/
structure Crypto where
  pbkdf2 : List Nat → List Nat → Nat → Nat → String → Option (List Nat)
  cipher : String → List Nat → List Nat → List Nat → Option (List Nat)
  decipher : String → List Nat → List Nat → List Nat → Option (List Nat)
  hmac : String → List Nat → List Char → List Nat
  b64encode : List Nat → List Char
  b64decode : List Char → List Nat

/-- Split a character list on the dollar delimiter, exactly like the
JavaScript `string.split('$')`: always returns at least one (possibly
empty) field. -/
def splitD : List Char → List (List Char)
  | [] => [[]]
  | c :: cs =>
      if c = '$' then [] :: splitD cs
      else
        match splitD cs with
        | [] => [[c]]
        | f :: r => (c :: f) :: r

/-- Join fields with the dollar delimiter (inverse of `splitD` on
dollar-free fields). -/
def joinD : List (List Char) → List Char
  | [] => []
  | [x] => x
  | x :: xs => x ++ '$' :: joinD xs

/-- Model of `encodedData.substr(0, encodedData.lastIndexOf('$'))`: drop
the last field and rejoin.  When the input has no dollar at all this is
`[]`, matching the JavaScript `substr(0, -1) = ''`. -/
def beforeLastD (t : List Char) : List Char :=
  joinD (splitD t).dropLast

/-- XOR-accumulate loop of `compareBuffers` (src/index.js lines 359-362). -/
def xorAcc : List Nat → List Nat → Nat
  | [], _ => 0
  | _, [] => 0
  | a :: as, b :: bs => (a ^^^ b) ||| xorAcc as bs

/-- Constant-time buffer comparison (src/index.js lines 355-364).  Both
call sites pass genuine buffers, so the `Buffer.isBuffer` guard is
trivially passed and is not modelled. -/
def compareBuffers (b1 b2 : List Nat) : Bool :=
  if b1.length ≠ b2.length then false
  else xorAcc b1 b2 == 0

/-- Model of the instance `verify` closure (src/index.js lines 91-107):
`Except.error` is a thrown TypeError, `Except.ok` the returned boolean. -/
def verifyRes (c : Crypto) (st : KripkeState) (t : List Char) : Except KErr Bool :=
  let parts := splitD t
  match st.hmacKey with
  | none =>
      if parts.length = 4 then .error .hmacKeyRequired else .ok true
  | some hk =>
      if parts.length < 4 then .error .hmacSignatureMissing
      else .ok (compareBuffers (c.hmac st.hmacAlgorithm hk (beforeLastD t))
                               (c.b64decode (parts.getD 3 [])))

/-- Model of the inline verification phase of the static decrypt
(src/index.js lines 304-323): same policy as the instance `verify`, with
the effective options taken from the per-call option bag. -/
def statVerify (c : Crypto) (o : Options) (t : List Char) : Except KErr Bool :=
  let parts := splitD t
  match o.hmacKey with
  | none =>
      if parts.length = 4 then .error .hmacKeyRequired else .ok true
  | some hk =>
      if parts.length < 4 then .error .hmacSignatureMissing
      else .ok (compareBuffers (c.hmac (effHmacAlgorithm o) hk (beforeLastD t))
                               (c.b64decode (parts.getD 3 [])))

/-- Model of `Kripke.prototype.encrypt` (src/index.js lines 116-145).
The randomly generated salt and iv are explicit arguments.  On pbkdf2
failure the error is passed through to the callback with no result; cipher
failures are caught and reported the same way; on success the token is the
dollar-joined base64 fields, signed when an hmacKey is configured
(`sign`, lines 71-81). -/
def instEncrypt (c : Crypto) (st : KripkeState) (hasCb : Bool)
    (p : List Nat) (salt iv : List Nat) : Outcome (List Char) :=
  if !hasCb then .thrown .noCallback
  else if p.isEmpty then .thrown .invalidPlainText
  else
    match c.pbkdf2 st.key salt st.iterations st.keyLength st.hmacAlgorithm with
    | none => .cb (some .kdfFailure) none
    | some dk =>
        match c.cipher st.algorithm dk iv p with
        | none => .cb (some .cipherFailure) none
        | some ctBytes =>
            let encoded := c.b64encode ctBytes ++
                             '$' :: (c.b64encode iv ++ '$' :: c.b64encode salt)
            match st.hmacKey with
            | none => .cb none (some encoded)
            | some hk =>
                .cb none (some (encoded ++ '$' ::
                  c.b64encode (c.hmac st.hmacAlgorithm hk encoded)))

/-- Model of the static `Kripke.encrypt` (src/index.js lines 213-267).
Note the fixed derived-key length of 32 bytes in the pbkdf2 call
(line 233), independent of any keyLength option. -/
def statEncrypt (c : Crypto) (o : Options) (hasCb : Bool)
    (p : List Nat) (salt iv : List Nat) : Outcome (List Char) :=
  if !hasCb then .thrown .noCallback
  else
    match o.key with
    | none => .thrown .missingKey
    | some k =>
      if p.isEmpty then .thrown .invalidPlainText
      else
        match c.pbkdf2 k salt (effIterations o) 32 (effHmacAlgorithm o) with
        | none => .cb (some .kdfFailure) none
        | some dk =>
            match c.cipher (effAlgorithm o) dk iv p with
            | none => .cb (some .cipherFailure) none
            | some ctBytes =>
                let encoded := c.b64encode ctBytes ++
                                 '$' :: (c.b64encode iv ++ '$' :: c.b64encode salt)
                match o.hmacKey with
                | none => .cb none (some encoded)
                | some hk =>
                    .cb none (some (encoded ++ '$' ::
                      c.b64encode (c.hmac (effHmacAlgorithm o) hk encoded)))

/-- Model of `Kripke.prototype.decrypt` (src/index.js lines 153-196),
instrumented: the second component records whether the decipher step was
reached.  Faithful details: tokens with fewer than 3 fields are reported
through the callback as `encodedTextInvalid`; a pbkdf2 error is silently
dropped (the `err` parameter of the inner callback on line 171 is shadowed
and never read, so the callback receives neither error nor result). -/
def instDecryptI (c : Crypto) (st : KripkeState) (hasCb : Bool)
    (t : List Char) : Outcome (List Nat) × Bool :=
  if !hasCb then (.thrown .noCallback, false)
  else if t.isEmpty then (.thrown .invalidCipherText, false)
  else
    let parts := splitD t
    if 3 ≤ parts.length then
      let iv := c.b64decode (parts.getD 1 [])
      let salt := c.b64decode (parts.getD 2 [])
      match verifyRes c st t with
      | .error e => (.cb (some e) none, false)
      | .ok false => (.cb (some .hmacVerifyFailed) none, false)
      | .ok true =>
          match c.pbkdf2 st.key salt st.iterations st.keyLength st.hmacAlgorithm with
          | none => (.cb none none, false)
          | some dk =>
              match c.decipher st.algorithm dk iv (c.b64decode (parts.getD 0 [])) with
              | none => (.cb (some .decipherFailure) none, true)
              | some pt => (.cb none (some pt), true)
    else (.cb (some .encodedTextInvalid) none, false)

/-- Model of the static `Kripke.decrypt` (src/index.js lines 283-346),
instrumented like `instDecryptI`.  Faithful details: there is no
field-count check, so a token with fewer than 3 fields throws synchronously
when `new Buffer(undefined, 'base64')` is evaluated (lines 300-301); the
pbkdf2 call uses the fixed key length 32 (line 327) and its error IS passed
through to the callback (line 340). -/
def statDecryptI (c : Crypto) (o : Options) (hasCb : Bool)
    (t : List Char) : Outcome (List Nat) × Bool :=
  if !hasCb then (.thrown .noCallback, false)
  else if t.isEmpty then (.thrown .invalidCipherText, false)
  else
    match o.key with
    | none => (.thrown .missingKey, false)
    | some k =>
      let parts := splitD t
      if parts.length < 3 then (.thrown .bufferFromUndefined, false)
      else
        let iv := c.b64decode (parts.getD 1 [])
        let salt := c.b64decode (parts.getD 2 [])
        match statVerify c o t with
        | .error e => (.cb (some e) none, false)
        | .ok false => (.cb (some .hmacVerifyFailed) none, false)
        | .ok true =>
            match c.pbkdf2 k salt (effIterations o) 32 (effHmacAlgorithm o) with
            | none => (.cb (some .kdfFailure) none, false)
            | some dk =>
                match c.decipher (effAlgorithm o) dk iv (c.b64decode (parts.getD 0 [])) with
                | none => (.cb (some .decipherFailure) none, true)
                | some pt => (.cb none (some pt), true)

/-- Outcome is a single error and carries no plaintext: either a thrown
exception or a callback invocation with an error and no result. -/
def isSingleError {α : Type} : Outcome α → Bool
  | .thrown _ => true
  | .cb (some _) none => true
  | _ => false

/-- Correctness assumptions about the external collaborators (the spec
places the primitives themselves out of scope): base64 decode inverts
encode, base64 output never contains the dollar delimiter, and decipher
inverts cipher under the same algorithm, key and iv. -/
structure Crypto.Good (c : Crypto) : Prop where
  b64_rt : ∀ bs, c.b64decode (c.b64encode bs) = bs
  b64_nd : ∀ bs, '$' ∉ c.b64encode bs
  cd : ∀ alg k iv pt ct, c.cipher alg k iv pt = some ct →
         c.decipher alg k iv ct = some pt

/-- Unary decoder used by the toy base64 collaborator. -/
def toyDecAux : Nat → List Char → List Nat
  | _, [] => []
  | n, c :: cs => if c = 'b' then n :: toyDecAux 0 cs else toyDecAux (n + 1) cs

/-- Unary encoder used by the toy base64 collaborator: a byte of value `b`
becomes `b` letters a followed by one letter b, so the output never
contains the dollar delimiter. -/
def toyEnc : List Nat → List Char
  | [] => []
  | b :: bs => List.replicate b 'a' ++ 'b' :: toyEnc bs

/-- Concrete executable collaborator used to evaluate the model on
concrete inputs: the derived key is keyLen copies of a value depending on
key, salt and iterations; the cipher shifts every byte by the key and iv
sums; the hmac is a two-byte digest. -/
def toyCrypto : Crypto where
  pbkdf2 := fun key salt iter klen _ =>
    some (List.replicate klen ((key.sum + salt.sum + iter) % 2 + 1))
  cipher := fun _ key iv pt => some (pt.map (fun b => b + (key.sum + iv.sum)))
  decipher := fun _ key iv ct => some (ct.map (fun b => b - (key.sum + iv.sum)))
  hmac := fun _ key msg => [key.sum % 7, msg.length % 7]
  b64encode := toyEnc
  b64decode := toyDecAux 0

/-- Toy collaborator whose key-derivation always reports an error, used to
observe how each decrypt path treats a pbkdf2 failure. -/
def toyKdfFail : Crypto := { toyCrypto with pbkdf2 := fun _ _ _ _ _ => none }

/-- Concrete option bag: key only. -/
def oPlain : Options := { key := some [1], iterations := some 1 }

/-- Concrete option bag: key plus hmacKey. -/
def oHmac : Options := { key := some [1], hmacKey := some [2], iterations := some 1 }

/-- Concrete option bag with the supported keyLength value 128. -/
def oKL128 : Options := { key := some [1], iterations := some 1, keyLength := some 128 }

/-- Concrete option bag with an unsupported keyLength value. -/
def oBadKL : Options := { key := some [1], keyLength := some 100 }

/-- Instance state captured by the constructor from `oPlain`. -/
def stPlain : KripkeState :=
  { key := [1], hmacKey := none, iterations := 1, hmacAlgorithm := "SHA256",
    keyLength := 32, algorithm := "AES-256-CBC" }

/-- Instance state captured by the constructor from `oHmac`. -/
def stHmac : KripkeState :=
  { key := [1], hmacKey := some [2], iterations := 1, hmacAlgorithm := "SHA256",
    keyLength := 32, algorithm := "AES-256-CBC" }

/-- Instance state captured by the constructor from `oKL128`: a 16-byte
derived-key length. -/
def stKL128 : KripkeState :=
  { key := [1], hmacKey := none, iterations := 1, hmacAlgorithm := "SHA256",
    keyLength := 16, algorithm := "AES-256-CBC" }

/-- Concrete well-formed 3-field token text. -/
def tok3 : List Char := ['x', '$', 'y', '$', 'z']

/-- Concrete 5-field token text. -/
def tok5 : List Char := ['x', '$', 'y', '$', 'z', '$', 'w', '$', 'v']

/-- Concrete 2-field token text. -/
def tok2 : List Char := ['x', '$', 'y']

/-- Token produced by the instance encrypt under the keyLength-128
configuration, with salt [2] and iv [3]. -/
def tokKL128 : List Char :=
  match instEncrypt toyCrypto stKL128 true [1] [2] [3] with
  | .cb _ (some t) => t
  | _ => []

/-- Token produced by the instance encrypt under the plain configuration,
with salt [2] and iv [3]. -/
def tokP : List Char :=
  match instEncrypt toyCrypto stPlain true [1] [2] [3] with
  | .cb _ (some t) => t
  | _ => []

/-- Token produced by the instance encrypt under the hmac configuration,
with salt [2] and iv [3]. -/
def tokH : List Char :=
  match instEncrypt toyCrypto stHmac true [1] [2] [3] with
  | .cb _ (some t) => t
  | _ => []

theorem splitD_ne_nil : ∀ l : List Char, splitD l ≠ []
  | [] => by simp [splitD]
  | c :: cs => by
      simp only [splitD]
      split
      · simp
      · split <;> simp

theorem splitD_no_dollar (l : List Char) (h : '$' ∉ l) : splitD l = [l] := by
  induction l with
  | nil => rfl
  | cons c cs ih =>
      have hc : ¬ (c = '$') := fun e => h (by simp [e])
      have hcs : '$' ∉ cs := fun m => h (List.mem_cons_of_mem _ m)
      simp only [splitD, if_neg hc]
      rw [ih hcs]

theorem splitD_append (a b : List Char) (h : '$' ∉ a) :
    splitD (a ++ '$' :: b) = a :: splitD b := by
  induction a with
  | nil => simp [splitD]
  | cons c cs ih =>
      have hc : ¬ (c = '$') := fun e => h (by simp [e])
      have hcs : '$' ∉ cs := fun m => h (List.mem_cons_of_mem _ m)
      simp only [List.cons_append, splitD, if_neg hc, List.append_eq]
      rw [ih hcs]

theorem splitD_token3 (a b c : List Char)
    (ha : '$' ∉ a) (hb : '$' ∉ b) (hc : '$' ∉ c) :
    splitD (a ++ '$' :: (b ++ '$' :: c)) = [a, b, c] := by
  rw [splitD_append _ _ ha, splitD_append _ _ hb, splitD_no_dollar _ hc]

theorem splitD_token4 (a b c d : List Char)
    (ha : '$' ∉ a) (hb : '$' ∉ b) (hc : '$' ∉ c) (hd : '$' ∉ d) :
    splitD ((a ++ '$' :: (b ++ '$' :: c)) ++ '$' :: d) = [a, b, c, d] := by
  simp only [List.append_assoc, List.cons_append]
  rw [splitD_append _ _ ha, splitD_append _ _ hb, splitD_append _ _ hc,
      splitD_no_dollar _ hd]

theorem beforeLastD_token4 (a b c d : List Char)
    (ha : '$' ∉ a) (hb : '$' ∉ b) (hc : '$' ∉ c) (hd : '$' ∉ d) :
    beforeLastD ((a ++ '$' :: (b ++ '$' :: c)) ++ '$' :: d) =
      a ++ '$' :: (b ++ '$' :: c) := by
  unfold beforeLastD
  rw [splitD_token4 a b c d ha hb hc hd]
  rfl

theorem splitD_token4R (a b c d : List Char)
    (ha : '$' ∉ a) (hb : '$' ∉ b) (hc : '$' ∉ c) (hd : '$' ∉ d) :
    splitD (a ++ '$' :: (b ++ '$' :: (c ++ '$' :: d))) = [a, b, c, d] := by
  rw [splitD_append _ _ ha, splitD_append _ _ hb, splitD_append _ _ hc,
      splitD_no_dollar _ hd]

theorem beforeLastD_token4R (a b c d : List Char)
    (ha : '$' ∉ a) (hb : '$' ∉ b) (hc : '$' ∉ c) (hd : '$' ∉ d) :
    beforeLastD (a ++ '$' :: (b ++ '$' :: (c ++ '$' :: d))) =
      a ++ '$' :: (b ++ '$' :: c) := by
  unfold beforeLastD
  rw [splitD_token4R a b c d ha hb hc hd]
  rfl

theorem append_cons_isEmpty (a : List Char) (c : Char) (b : List Char) :
    (a ++ c :: b).isEmpty = false := by
  cases a <;> rfl

theorem orZeroIff (a b : Nat) : a ||| b = 0 ↔ a = 0 ∧ b = 0 := by
  constructor
  · intro h
    have hb : ∀ i, Nat.testBit a i = false ∧ Nat.testBit b i = false := by
      intro i
      have hx := congrArg (fun n => Nat.testBit n i) h
      simpa [Nat.testBit_or, Nat.zero_testBit] using hx
    constructor
    · apply Nat.eq_of_testBit_eq
      intro i
      simp [(hb i).1, Nat.zero_testBit]
    · apply Nat.eq_of_testBit_eq
      intro i
      simp [(hb i).2, Nat.zero_testBit]
  · rintro ⟨h1, h2⟩
    simp [h1, h2]

theorem xorAcc_eq_zero : ∀ (b1 b2 : List Nat), b1.length = b2.length →
    (xorAcc b1 b2 = 0 ↔ b1 = b2)
  | [], [] => by simp [xorAcc]
  | [], b :: bs => by simp
  | a :: as, [] => by simp
  | a :: as, b :: bs => by
      intro h
      simp only [xorAcc]
      rw [orZeroIff, Nat.xor_eq_zero, xorAcc_eq_zero as bs (by simpa using h),
          List.cons.injEq]

theorem compareBuffers_iff (b1 b2 : List Nat) :
    compareBuffers b1 b2 = true ↔ b1 = b2 := by
  unfold compareBuffers
  by_cases h : b1.length = b2.length
  · rw [if_neg (by simp [h])]
    simp [beq_iff_eq, xorAcc_eq_zero b1 b2 h]
  · rw [if_pos h]
    simp only [Bool.false_eq_true, false_iff]
    exact fun e => h (by rw [e])

theorem compareBuffers_self (b : List Nat) : compareBuffers b b = true :=
  (compareBuffers_iff b b).mpr rfl

theorem toyDecAux_enc : ∀ (k b : Nat) (rest : List Char),
    toyDecAux k (List.replicate b 'a' ++ 'b' :: rest) = (k + b) :: toyDecAux 0 rest
  | k, 0, rest => by simp [toyDecAux]
  | k, b + 1, rest => by
      simp only [List.replicate_succ, List.cons_append, toyDecAux,
        if_neg (by decide : ¬ (('a' : Char) = 'b')), List.append_eq]
      rw [toyDecAux_enc (k + 1) b rest]
      congr 1
      omega

theorem toy_b64_rt : ∀ bs, toyDecAux 0 (toyEnc bs) = bs
  | [] => rfl
  | b :: bs => by
      rw [toyEnc, toyDecAux_enc, toy_b64_rt bs, Nat.zero_add]

theorem toy_b64_nd : ∀ bs, '$' ∉ toyEnc bs
  | [] => by simp [toyEnc]
  | b :: bs => by
      intro h
      rw [toyEnc] at h
      rcases List.mem_append.1 h with h1 | h2
      · exact absurd (List.eq_of_mem_replicate h1) (by decide)
      · rcases List.mem_cons.1 h2 with h3 | h4
        · exact absurd h3 (by decide)
        · exact toy_b64_nd bs h4

theorem toyGood : toyCrypto.Good := by
  refine ⟨toy_b64_rt, toy_b64_nd, ?_⟩
  intro alg k iv pt ct h
  simp only [toyCrypto, Option.some.injEq] at h ⊢
  rw [← h, List.map_map]
  have h2 : ((fun b => b - (k.sum + iv.sum)) ∘ fun b : Nat => b + (k.sum + iv.sum))
      = (id : Nat → Nat) := by
    funext x
    simp [Nat.add_sub_cancel]
  rw [h2, List.map_id]

theorem dropLast_len4 : ∀ l : List (List Char), l.length = 4 → l.dropLast = l.take 3
  | [_, _, _, _], _ => rfl
  | [], _ => rfl
  | [_], h => by
      simp only [List.length_cons, List.length_nil] at h
      omega
  | [_, _], h => by
      simp only [List.length_cons, List.length_nil] at h
      omega
  | [_, _, _], h => by
      simp only [List.length_cons, List.length_nil] at h
      omega
  | _ :: _ :: _ :: _ :: _ :: l, h => by
      simp only [List.length_cons] at h
      omega

theorem beforeLastD_of_len4 (t : List Char) (h : (splitD t).length = 4) :
    beforeLastD t = joinD ((splitD t).take 3) := by
  unfold beforeLastD
  rw [dropLast_len4 _ h]

/-- C7: the buffer comparison returns true exactly when the two buffers
have equal length and identical byte contents (over equal-length inputs it
XOR-accumulates byte by byte and is true precisely when the accumulated
value is zero, which happens exactly for identical contents), and a length
mismatch returns false. -/
theorem C7_compareBuffers_eq (b1 b2 : List Nat) :
    (compareBuffers b1 b2 = true ↔ b1.length = b2.length ∧ b1 = b2) ∧
    (b1.length ≠ b2.length → compareBuffers b1 b2 = false) := by
  constructor
  · rw [compareBuffers_iff]
    constructor
    · intro h
      exact ⟨by rw [h], h⟩
    · exact fun h => h.2
  · intro h
    unfold compareBuffers
    rw [if_pos h]

theorem C7_witness :
    compareBuffers [3, 7] [3, 7] = true ∧ compareBuffers [3] [3, 7] = false :=
  ⟨(C7_compareBuffers_eq [3, 7] [3, 7]).1.mpr ⟨rfl, rfl⟩,
   (C7_compareBuffers_eq [3] [3, 7]).2 (by decide)⟩

/-- C9: with a key present, construction always succeeds, and an absent or
unsupported keyLength option is silently replaced by the default 32-byte
derived-key length; no error is raised for an unsupported key length. -/
theorem C9_keyLength_fallback (o : Options) (k : List Nat)
    (hk : o.key = some k)
    (hkl : ∀ v, o.keyLength = some v → v ≠ 128 ∧ v ≠ 192 ∧ v ≠ 256) :
    ∃ st, mkKripke o = .ok st ∧ st.keyLength = 32 := by
  refine ⟨{ key := k, hmacKey := o.hmacKey, iterations := effIterations o,
            hmacAlgorithm := effHmacAlgorithm o, keyLength := effKeyLength o,
            algorithm := effAlgorithm o }, ?_, ?_⟩
  · unfold mkKripke
    rw [hk]
  · show effKeyLength o = 32
    unfold effKeyLength
    cases h : o.keyLength with
    | none => rfl
    | some v =>
        have hv := hkl v h
        show (if v = 128 ∨ v = 192 ∨ v = 256 then v / 8 else 32) = 32
        rw [if_neg]
        rintro (e | e | e)
        · exact hv.1 e
        · exact hv.2.1 e
        · exact hv.2.2 e

theorem C9_witness : ∃ st, mkKripke oBadKL = .ok st ∧ st.keyLength = 32 :=
  C9_keyLength_fallback oBadKL [1] rfl (fun v hv => by
    have h100 : 100 = v := by simpa [oBadKL] using hv
    refine ⟨?_, ?_, ?_⟩ <;> omega)

/-- C8: an empty plaintext is rejected by both encrypt forms as a thrown
invalid-input error, and an empty token is rejected by both decrypt forms
as a thrown invalid-input error.  The conclusion holds for every
collaborator `c`, so no cryptographic primitive (in particular the KDF) is
consulted; a non-string token is outside the typed embedding. -/
theorem C8_empty_input_rejected (c : Crypto) (st : KripkeState) (o : Options)
    (k : List Nat) (hk : o.key = some k) (salt iv : List Nat) :
    instEncrypt c st true [] salt iv = .thrown .invalidPlainText ∧
    statEncrypt c o true [] salt iv = .thrown .invalidPlainText ∧
    instDecryptI c st true [] = (.thrown .invalidCipherText, false) ∧
    statDecryptI c o true [] = (.thrown .invalidCipherText, false) := by
  refine ⟨rfl, ?_, rfl, rfl⟩
  simp [statEncrypt, hk]

theorem C8_witness :
    instEncrypt toyCrypto stPlain true [] [2] [3] = .thrown .invalidPlainText ∧
    statEncrypt toyCrypto oPlain true [] [2] [3] = .thrown .invalidPlainText ∧
    instDecryptI toyCrypto stPlain true [] = (.thrown .invalidCipherText, false) ∧
    statDecryptI toyCrypto oPlain true [] = (.thrown .invalidCipherText, false) :=
  C8_empty_input_rejected toyCrypto stPlain oPlain [1] rfl [2] [3]

/-- C10 (code-bug evidence): on a well-formed 3-field token whose
verification passes, a pbkdf2 failure is reported through the callback
error argument by the static decrypt, but the instance decrypt swallows it
(the err parameter of the inner callback is shadowed on line 171 of
src/index.js) and invokes the callback with neither error nor result. -/
theorem C10_kdf_error_swallowed :
    verifyRes toyKdfFail stPlain tok3 = .ok true ∧
    (instDecryptI toyKdfFail stPlain true tok3).1 = .cb none none ∧
    (statDecryptI toyKdfFail oPlain true tok3).1 = .cb (some .kdfFailure) none :=
  ⟨rfl, rfl, rfl⟩

/-- C2 (counterexample): a five-field token carries a 4th field, yet with
no hmacKey configured the instance verification returns true instead of
raising the key-required error the claim prescribes. -/
theorem C2_cex :
    (splitD tok5).length = 5 ∧ (splitD tok5).getD 3 [] = ['w'] ∧
    stPlain.hmacKey = none ∧ verifyRes toyCrypto stPlain tok5 = .ok true :=
  ⟨rfl, rfl, rfl, rfl⟩

/-- C2 (amended): restricted to tokens with at most four fields, the
verification policy matrix holds on both the instance and the static side:
no key and no 4th field returns true; a 4th field without a key raises the
key-required error; a key without a 4th field raises the signature-missing
error; with both, the HMAC is recomputed over the first three joined
fields and compared against the 4th field. -/
theorem C2_verify_policy (c : Crypto) (st : KripkeState) (o : Options)
    (t : List Char) (hlen : (splitD t).length ≤ 4) :
    (st.hmacKey = none → (splitD t).length ≠ 4 → verifyRes c st t = .ok true) ∧
    (st.hmacKey = none → (splitD t).length = 4 →
       verifyRes c st t = .error .hmacKeyRequired) ∧
    (∀ hk, st.hmacKey = some hk → (splitD t).length ≠ 4 →
       verifyRes c st t = .error .hmacSignatureMissing) ∧
    (∀ hk, st.hmacKey = some hk → (splitD t).length = 4 →
       verifyRes c st t = .ok (compareBuffers
         (c.hmac st.hmacAlgorithm hk (joinD ((splitD t).take 3)))
         (c.b64decode ((splitD t).getD 3 [])))) ∧
    (o.hmacKey = none → (splitD t).length ≠ 4 → statVerify c o t = .ok true) ∧
    (o.hmacKey = none → (splitD t).length = 4 →
       statVerify c o t = .error .hmacKeyRequired) ∧
    (∀ hk, o.hmacKey = some hk → (splitD t).length ≠ 4 →
       statVerify c o t = .error .hmacSignatureMissing) ∧
    (∀ hk, o.hmacKey = some hk → (splitD t).length = 4 →
       statVerify c o t = .ok (compareBuffers
         (c.hmac (effHmacAlgorithm o) hk (joinD ((splitD t).take 3)))
         (c.b64decode ((splitD t).getD 3 [])))) := by
  refine ⟨?_, ?_, ?_, ?_, ?_, ?_, ?_, ?_⟩
  · intro h1 h2
    simp [verifyRes, h1, h2]
  · intro h1 h2
    simp [verifyRes, h1, h2]
  · intro hk hh h2
    have hlt : (splitD t).length < 4 := by omega
    simp [verifyRes, hh, hlt]
  · intro hk hh h2
    have hb := beforeLastD_of_len4 t h2
    simp [verifyRes, hh, h2, hb]
  · intro h1 h2
    simp [statVerify, h1, h2]
  · intro h1 h2
    simp [statVerify, h1, h2]
  · intro hk hh h2
    have hlt : (splitD t).length < 4 := by omega
    simp [statVerify, hh, hlt]
  · intro hk hh h2
    have hb := beforeLastD_of_len4 t h2
    simp [statVerify, hh, h2, hb]

theorem C2_witness :
    verifyRes toyCrypto stPlain tok3 = .ok true ∧
    statVerify toyCrypto oHmac tok3 = .error .hmacSignatureMissing := by
  have h := C2_verify_policy toyCrypto stPlain oHmac tok3 (by decide)
  exact ⟨h.1 rfl (by decide), h.2.2.2.2.2.2.1 [2] rfl (by decide)⟩

/-- C3: whenever required verification fails or cannot be performed (the
verification result is anything other than ok-true), the decipher step is
never executed and the sole outcome is a single error with no plaintext,
on both the instance and the static decrypt path. -/
theorem C3_no_decipher_on_verify_failure (c : Crypto) (st : KripkeState)
    (o : Options) (hasCb : Bool) (t : List Char) :
    (verifyRes c st t ≠ .ok true →
       (instDecryptI c st hasCb t).2 = false ∧
       isSingleError (instDecryptI c st hasCb t).1 = true) ∧
    (statVerify c o t ≠ .ok true →
       (statDecryptI c o hasCb t).2 = false ∧
       isSingleError (statDecryptI c o hasCb t).1 = true) := by
  constructor
  · intro hv
    cases hasCb with
    | false => exact ⟨rfl, rfl⟩
    | true =>
        by_cases ht : t.isEmpty
        · simp [instDecryptI, ht, isSingleError]
        · by_cases h3 : 3 ≤ (splitD t).length
          · cases hq : verifyRes c st t with
            | error e => simp [instDecryptI, ht, h3, hq, isSingleError]
            | ok b =>
                cases b with
                | false => simp [instDecryptI, ht, h3, hq, isSingleError]
                | true => exact absurd hq hv
          · simp [instDecryptI, ht, h3, isSingleError]
  · intro hv
    cases hasCb with
    | false => exact ⟨rfl, rfl⟩
    | true =>
        by_cases ht : t.isEmpty
        · simp [statDecryptI, ht, isSingleError]
        · cases hky : o.key with
          | none => simp [statDecryptI, ht, hky, isSingleError]
          | some k =>
              by_cases h3 : (splitD t).length < 3
              · simp [statDecryptI, ht, hky, h3, isSingleError]
              · cases hq : statVerify c o t with
                | error e => simp [statDecryptI, ht, hky, h3, hq, isSingleError]
                | ok b =>
                    cases b with
                    | false => simp [statDecryptI, ht, hky, h3, hq, isSingleError]
                    | true => exact absurd hq hv

theorem C3_witness :
    ((instDecryptI toyCrypto stHmac true tok3).2 = false ∧
     isSingleError (instDecryptI toyCrypto stHmac true tok3).1 = true) ∧
    ((statDecryptI toyCrypto oHmac true tok3).2 = false ∧
     isSingleError (statDecryptI toyCrypto oHmac true tok3).1 = true) := by
  have h := C3_no_decipher_on_verify_failure toyCrypto stHmac oHmac true tok3
  exact ⟨h.1 (by decide), h.2 (by decide)⟩

/-- C5 (counterexample): a five-field token is not treated as malformed —
with no hmacKey configured the instance decrypt runs the decipher step and
delivers a plaintext result with no error. -/
theorem C5_cex :
    (splitD tok5).length = 5 ∧
    (instDecryptI toyCrypto stPlain true tok5).2 = true ∧
    (instDecryptI toyCrypto stPlain true tok5).1 = .cb none (some []) :=
  ⟨rfl, rfl, rfl⟩

/-- C5 (amended): a token with fewer than 3 fields is rejected before any
cryptographic work (the conclusion holds for every collaborator `c`) — the
instance decrypt reports the malformed-input error through the callback
and the static decrypt throws on the missing Buffer field — but field
counts above 4 are not rejected, as the counterexample shows. -/
theorem C5_too_few_fields (c : Crypto) (st : KripkeState) (o : Options)
    (k : List Nat) (hk : o.key = some k) (t : List Char)
    (ht : t.isEmpty = false) (h3 : (splitD t).length < 3) :
    instDecryptI c st true t = (.cb (some .encodedTextInvalid) none, false) ∧
    statDecryptI c o true t = (.thrown .bufferFromUndefined, false) := by
  have h3' : ¬ 3 ≤ (splitD t).length := by omega
  constructor
  · simp [instDecryptI, ht, h3']
  · simp [statDecryptI, ht, hk, h3]

theorem C5_witness :
    instDecryptI toyCrypto stPlain true tok2 =
      (.cb (some .encodedTextInvalid) none, false) ∧
    statDecryptI toyCrypto oPlain true tok2 =
      (.thrown .bufferFromUndefined, false) :=
  C5_too_few_fields toyCrypto stPlain oPlain [1] rfl tok2 (by decide) (by decide)

/-- C6: a successful encrypt call (either form) produces a token that
splits on the dollar delimiter into exactly the three base64 fields
ciphertext, iv, salt when no hmacKey is configured, and into those three
plus the base64 HMAC signature appended as the last field when an hmacKey
is configured. -/
theorem C6_token_shape (c : Crypto) (hg : c.Good) (st : KripkeState)
    (o : Options) (p salt iv : List Nat) :
    (∀ tok, instEncrypt c st true p salt iv = .cb none (some tok) →
       (splitD tok).length = (if st.hmacKey.isSome then 4 else 3) ∧
       ∃ dk ctBytes,
         c.pbkdf2 st.key salt st.iterations st.keyLength st.hmacAlgorithm = some dk ∧
         c.cipher st.algorithm dk iv p = some ctBytes ∧
         splitD tok = [c.b64encode ctBytes, c.b64encode iv, c.b64encode salt] ++
           (match st.hmacKey with
            | none => []
            | some hk => [c.b64encode (c.hmac st.hmacAlgorithm hk
                (c.b64encode ctBytes ++ '$' ::
                  (c.b64encode iv ++ '$' :: c.b64encode salt)))])) ∧
    (∀ tok, statEncrypt c o true p salt iv = .cb none (some tok) →
       (splitD tok).length = (if o.hmacKey.isSome then 4 else 3) ∧
       ∃ k dk ctBytes, o.key = some k ∧
         c.pbkdf2 k salt (effIterations o) 32 (effHmacAlgorithm o) = some dk ∧
         c.cipher (effAlgorithm o) dk iv p = some ctBytes ∧
         splitD tok = [c.b64encode ctBytes, c.b64encode iv, c.b64encode salt] ++
           (match o.hmacKey with
            | none => []
            | some hk => [c.b64encode (c.hmac (effHmacAlgorithm o) hk
                (c.b64encode ctBytes ++ '$' ::
                  (c.b64encode iv ++ '$' :: c.b64encode salt)))])) := by
  constructor
  · intro tok h
    by_cases hp : p.isEmpty
    · simp [instEncrypt, hp] at h
    · cases hdk : c.pbkdf2 st.key salt st.iterations st.keyLength st.hmacAlgorithm with
      | none => simp [instEncrypt, hp, hdk] at h
      | some dk =>
          cases hct : c.cipher st.algorithm dk iv p with
          | none => simp [instEncrypt, hp, hdk, hct] at h
          | some ctBytes =>
              cases hhk : st.hmacKey with
              | none =>
                  simp only [instEncrypt, hp, hdk, hct, hhk, Bool.not_true,
                    Bool.false_eq_true, if_false, Outcome.cb.injEq,
                    Option.some.injEq, true_and] at h
                  subst h
                  have hs := splitD_token3 _ _ _ (hg.b64_nd ctBytes)
                    (hg.b64_nd iv) (hg.b64_nd salt)
                  refine ⟨by rw [hs]; rfl, dk, ctBytes, rfl, hct, ?_⟩
                  rw [hs]
                  simp
              | some hk =>
                  simp only [instEncrypt, hp, hdk, hct, hhk, Bool.not_true,
                    Bool.false_eq_true, if_false, Outcome.cb.injEq,
                    Option.some.injEq, true_and] at h
                  subst h
                  have hs := splitD_token4 _ _ _ _ (hg.b64_nd ctBytes)
                    (hg.b64_nd iv) (hg.b64_nd salt)
                    (hg.b64_nd (c.hmac st.hmacAlgorithm hk (c.b64encode ctBytes ++
                      '$' :: (c.b64encode iv ++ '$' :: c.b64encode salt))))
                  refine ⟨by rw [hs]; rfl, dk, ctBytes, rfl, hct, ?_⟩
                  rw [hs]
                  rfl
  · intro tok h
    cases hko : o.key with
    | none => simp [statEncrypt, hko] at h
    | some k =>
        by_cases hp : p.isEmpty
        · simp [statEncrypt, hko, hp] at h
        · cases hdk : c.pbkdf2 k salt (effIterations o) 32 (effHmacAlgorithm o) with
          | none => simp [statEncrypt, hko, hp, hdk] at h
          | some dk =>
              cases hct : c.cipher (effAlgorithm o) dk iv p with
              | none => simp [statEncrypt, hko, hp, hdk, hct] at h
              | some ctBytes =>
                  cases hhk : o.hmacKey with
                  | none =>
                      simp only [statEncrypt, hko, hp, hdk, hct, hhk, Bool.not_true,
                        Bool.false_eq_true, if_false, Outcome.cb.injEq,
                        Option.some.injEq, true_and] at h
                      subst h
                      have hs := splitD_token3 _ _ _ (hg.b64_nd ctBytes)
                        (hg.b64_nd iv) (hg.b64_nd salt)
                      refine ⟨by rw [hs]; rfl, k, dk, ctBytes, rfl, hdk, hct, ?_⟩
                      rw [hs]
                      simp
                  | some hk =>
                      simp only [statEncrypt, hko, hp, hdk, hct, hhk, Bool.not_true,
                        Bool.false_eq_true, if_false, Outcome.cb.injEq,
                        Option.some.injEq, true_and] at h
                      subst h
                      have hs := splitD_token4 _ _ _ _ (hg.b64_nd ctBytes)
                        (hg.b64_nd iv) (hg.b64_nd salt)
                        (hg.b64_nd (c.hmac (effHmacAlgorithm o) hk (c.b64encode ctBytes ++
                          '$' :: (c.b64encode iv ++ '$' :: c.b64encode salt))))
                      refine ⟨by rw [hs]; rfl, k, dk, ctBytes, rfl, hdk, hct, ?_⟩
                      rw [hs]
                      rfl

theorem C6_witness :
    (splitD tokH).length = (if stHmac.hmacKey.isSome then 4 else 3) ∧
    (splitD tokP).length = (if stPlain.hmacKey.isSome then 4 else 3) :=
  ⟨((C6_token_shape toyCrypto toyGood stHmac oPlain [1] [2] [3]).1 tokH rfl).1,
   ((C6_token_shape toyCrypto toyGood stPlain oPlain [1] [2] [3]).1 tokP rfl).1⟩

/-- C1: for every non-empty plaintext and valid configuration (secret key
present, collaborators succeeding on the call as `Crypto.Good` assumes),
decrypting the token produced by encrypting the plaintext under the same
configuration returns exactly that plaintext, in both the instance form
and the static form. -/
theorem C1_roundtrip (c : Crypto) (hg : c.Good) (o : Options) (st : KripkeState)
    (hmk : mkKripke o = .ok st) (p : List Nat) (hp : p ≠ []) (salt iv : List Nat) :
    (∀ tok, instEncrypt c st true p salt iv = .cb none (some tok) →
       (instDecryptI c st true tok).1 = .cb none (some p)) ∧
    (∀ tok, statEncrypt c o true p salt iv = .cb none (some tok) →
       (statDecryptI c o true tok).1 = .cb none (some p)) := by
  have hp' : p.isEmpty = false := by
    cases p with
    | nil => exact absurd rfl hp
    | cons a l => rfl
  constructor
  · intro tok h
    cases hdk : c.pbkdf2 st.key salt st.iterations st.keyLength st.hmacAlgorithm with
    | none => simp [instEncrypt, hp', hdk] at h
    | some dk =>
        cases hct : c.cipher st.algorithm dk iv p with
        | none => simp [instEncrypt, hp', hdk, hct] at h
        | some ctBytes =>
            have hdec := hg.cd st.algorithm dk iv p ctBytes hct
            cases hhk : st.hmacKey with
            | none =>
                simp only [instEncrypt, hp', hdk, hct, hhk, Bool.not_true,
                  Bool.false_eq_true, if_false, Outcome.cb.injEq,
                  Option.some.injEq, true_and] at h
                subst h
                have hs := splitD_token3 _ _ _ (hg.b64_nd ctBytes)
                  (hg.b64_nd iv) (hg.b64_nd salt)
                have hne := append_cons_isEmpty (c.b64encode ctBytes) '$'
                  (c.b64encode iv ++ '$' :: c.b64encode salt)
                have hv : verifyRes c st (c.b64encode ctBytes ++
                    '$' :: (c.b64encode iv ++ '$' :: c.b64encode salt)) = .ok true := by
                  simp [verifyRes, hhk, hs]
                simp [instDecryptI, hne, hs, hv, hg.b64_rt, hdk, hdec,
                  List.getD_cons_zero, List.getD_cons_succ]
            | some hk =>
                simp only [instEncrypt, hp', hdk, hct, hhk, Bool.not_true,
                  Bool.false_eq_true, if_false, Outcome.cb.injEq,
                  Option.some.injEq, true_and] at h
                subst h
                simp only [List.append_assoc, List.cons_append]
                have hs := splitD_token4R _ _ _ _ (hg.b64_nd ctBytes)
                  (hg.b64_nd iv) (hg.b64_nd salt)
                  (hg.b64_nd (c.hmac st.hmacAlgorithm hk (c.b64encode ctBytes ++
                    '$' :: (c.b64encode iv ++ '$' :: c.b64encode salt))))
                have hbl := beforeLastD_token4R _ _ _ _ (hg.b64_nd ctBytes)
                  (hg.b64_nd iv) (hg.b64_nd salt)
                  (hg.b64_nd (c.hmac st.hmacAlgorithm hk (c.b64encode ctBytes ++
                    '$' :: (c.b64encode iv ++ '$' :: c.b64encode salt))))
                have hne := append_cons_isEmpty (c.b64encode ctBytes) '$'
                  (c.b64encode iv ++ '$' :: (c.b64encode salt ++
                    '$' :: c.b64encode (c.hmac st.hmacAlgorithm hk (c.b64encode ctBytes ++
                      '$' :: (c.b64encode iv ++ '$' :: c.b64encode salt)))))
                have hv : verifyRes c st (c.b64encode ctBytes ++
                    '$' :: (c.b64encode iv ++ '$' :: (c.b64encode salt ++
                    '$' :: c.b64encode (c.hmac st.hmacAlgorithm hk (c.b64encode ctBytes ++
                      '$' :: (c.b64encode iv ++ '$' :: c.b64encode salt)))))) = .ok true := by
                  simp [verifyRes, hhk, hs, hbl, hg.b64_rt, compareBuffers_self,
                    List.getD_cons_zero, List.getD_cons_succ]
                simp [instDecryptI, hne, hs, hv, hg.b64_rt, hdk, hdec,
                  List.getD_cons_zero, List.getD_cons_succ]
  · intro tok h
    cases hko : o.key with
    | none => simp [mkKripke, hko] at hmk
    | some k =>
        cases hdk : c.pbkdf2 k salt (effIterations o) 32 (effHmacAlgorithm o) with
        | none => simp [statEncrypt, hko, hp', hdk] at h
        | some dk =>
            cases hct : c.cipher (effAlgorithm o) dk iv p with
            | none => simp [statEncrypt, hko, hp', hdk, hct] at h
            | some ctBytes =>
                have hdec := hg.cd (effAlgorithm o) dk iv p ctBytes hct
                cases hhk : o.hmacKey with
                | none =>
                    simp only [statEncrypt, hko, hp', hdk, hct, hhk, Bool.not_true,
                      Bool.false_eq_true, if_false, Outcome.cb.injEq,
                      Option.some.injEq, true_and] at h
                    subst h
                    have hs := splitD_token3 _ _ _ (hg.b64_nd ctBytes)
                      (hg.b64_nd iv) (hg.b64_nd salt)
                    have hne := append_cons_isEmpty (c.b64encode ctBytes) '$'
                      (c.b64encode iv ++ '$' :: c.b64encode salt)
                    have hv : statVerify c o (c.b64encode ctBytes ++
                        '$' :: (c.b64encode iv ++ '$' :: c.b64encode salt)) = .ok true := by
                      simp [statVerify, hhk, hs]
                    simp [statDecryptI, hko, hne, hs, hv, hg.b64_rt, hdk, hdec,
                      List.getD_cons_zero, List.getD_cons_succ]
                | some hk =>
                    simp only [statEncrypt, hko, hp', hdk, hct, hhk, Bool.not_true,
                      Bool.false_eq_true, if_false, Outcome.cb.injEq,
                      Option.some.injEq, true_and] at h
                    subst h
                    simp only [List.append_assoc, List.cons_append]
                    have hs := splitD_token4R _ _ _ _ (hg.b64_nd ctBytes)
                      (hg.b64_nd iv) (hg.b64_nd salt)
                      (hg.b64_nd (c.hmac (effHmacAlgorithm o) hk (c.b64encode ctBytes ++
                        '$' :: (c.b64encode iv ++ '$' :: c.b64encode salt))))
                    have hbl := beforeLastD_token4R _ _ _ _ (hg.b64_nd ctBytes)
                      (hg.b64_nd iv) (hg.b64_nd salt)
                      (hg.b64_nd (c.hmac (effHmacAlgorithm o) hk (c.b64encode ctBytes ++
                        '$' :: (c.b64encode iv ++ '$' :: c.b64encode salt))))
                    have hne := append_cons_isEmpty (c.b64encode ctBytes) '$'
                      (c.b64encode iv ++ '$' :: (c.b64encode salt ++
                        '$' :: c.b64encode (c.hmac (effHmacAlgorithm o) hk (c.b64encode ctBytes ++
                          '$' :: (c.b64encode iv ++ '$' :: c.b64encode salt)))))
                    have hv : statVerify c o (c.b64encode ctBytes ++
                        '$' :: (c.b64encode iv ++ '$' :: (c.b64encode salt ++
                        '$' :: c.b64encode (c.hmac (effHmacAlgorithm o) hk (c.b64encode ctBytes ++
                          '$' :: (c.b64encode iv ++ '$' :: c.b64encode salt)))))) = .ok true := by
                      simp [statVerify, hhk, hs, hbl, hg.b64_rt, compareBuffers_self,
                        List.getD_cons_zero, List.getD_cons_succ]
                    simp [statDecryptI, hko, hne, hs, hv, hg.b64_rt, hdk, hdec,
                      List.getD_cons_zero, List.getD_cons_succ]

theorem C1_witness :
    (instDecryptI toyCrypto stHmac true tokH).1 = .cb none (some [1]) ∧
    (statDecryptI toyCrypto oPlain true tokP).1 = .cb none (some [1]) :=
  ⟨(C1_roundtrip toyCrypto toyGood oHmac stHmac rfl [1] (by decide) [2] [3]).1 tokH rfl,
   (C1_roundtrip toyCrypto toyGood oPlain stPlain rfl [1] (by decide) [2] [3]).2 tokP rfl⟩

/-- C4 (counterexample): with keyLength 128 configured, the instance form
derives a 16-byte key while the static form always derives a 32-byte key
(src/index.js lines 233 and 327 hard-code 32), so a token produced by the
instance encrypt decrypts to the original plaintext under the instance
form but not under the static form with the same options. -/
theorem C4_cex :
    mkKripke oKL128 = .ok stKL128 ∧
    stKL128.keyLength = 16 ∧
    toyCrypto.pbkdf2 [1] [2] 1 stKL128.keyLength "SHA256" ≠
      toyCrypto.pbkdf2 [1] [2] 1 32 "SHA256" ∧
    instEncrypt toyCrypto stKL128 true [1] [2] [3] = .cb none (some tokKL128) ∧
    (instDecryptI toyCrypto stKL128 true tokKL128).1 = .cb none (some [1]) ∧
    (statDecryptI toyCrypto oKL128 true tokKL128).1 ≠ .cb none (some [1]) :=
  ⟨rfl, rfl, by decide, rfl, by decide, by decide⟩

/-- C4 (amended): whenever the instance state's derived-key length equals
the 32-byte value the static form hard-codes (keyLength 256, absent, or
unsupported), the two entry styles execute the identical core algorithm:
with the same key, options, salt and iv they produce identical encrypt
outcomes, and on every token with at least 3 fields whose key derivation
succeeds they produce identical decrypt outcomes, so tokens are
interchangeable between the forms. -/
theorem C4_forms_agree (c : Crypto) (o : Options) (st : KripkeState)
    (hmk : mkKripke o = .ok st) (h32 : st.keyLength = 32) :
    (∀ hasCb p salt iv,
       instEncrypt c st hasCb p salt iv = statEncrypt c o hasCb p salt iv) ∧
    (∀ hasCb t, 3 ≤ (splitD t).length →
       (c.pbkdf2 st.key (c.b64decode ((splitD t).getD 2 []))
          st.iterations 32 st.hmacAlgorithm).isSome →
       instDecryptI c st hasCb t = statDecryptI c o hasCb t) := by
  cases hko : o.key with
  | none => simp [mkKripke, hko] at hmk
  | some k =>
      simp only [mkKripke, hko, Except.ok.injEq] at hmk
      have hkey : st.key = k := by rw [← hmk]
      have hhk : st.hmacKey = o.hmacKey := by rw [← hmk]
      have hit : st.iterations = effIterations o := by rw [← hmk]
      have hha : st.hmacAlgorithm = effHmacAlgorithm o := by rw [← hmk]
      have hal : st.algorithm = effAlgorithm o := by rw [← hmk]
      have hvv : ∀ u, verifyRes c st u = statVerify c o u := by
        intro u
        unfold verifyRes statVerify
        rw [hhk, hha]
      constructor
      · intro hasCb p salt iv
        cases hasCb with
        | false => rfl
        | true =>
            by_cases hp : p.isEmpty
            · simp [instEncrypt, statEncrypt, hp, hko]
            · simp [instEncrypt, statEncrypt, hp, hko, hkey, hit, hha, hal, hhk, h32]
      · intro hasCb t h3 hsome
        rw [hkey, hit, hha] at hsome
        cases hasCb with
        | false => rfl
        | true =>
            by_cases ht : t.isEmpty
            · simp [instDecryptI, statDecryptI, ht]
            · have h3' : ¬ (splitD t).length < 3 := by omega
              cases hq : statVerify c o t with
              | error e =>
                  simp [instDecryptI, statDecryptI, ht, hko, h3, h3', hvv t, hq]
              | ok b =>
                  cases b with
                  | false =>
                      simp [instDecryptI, statDecryptI, ht, hko, h3, h3', hvv t, hq]
                  | true =>
                      cases hdk : c.pbkdf2 k (c.b64decode ((splitD t).getD 2 []))
                          (effIterations o) 32 (effHmacAlgorithm o) with
                      | none =>
                          rw [hdk] at hsome
                          simp at hsome
                      | some dk =>
                          simp at hdk
                          simp [instDecryptI, statDecryptI, ht, hko, h3, h3', hvv t,
                            hq, hkey, hit, hha, hal, h32, hdk]

theorem C4_witness :
    instEncrypt toyCrypto stPlain true [1] [2] [3] =
      statEncrypt toyCrypto oPlain true [1] [2] [3] ∧
    instDecryptI toyCrypto stPlain true tokP = statDecryptI toyCrypto oPlain true tokP := by
  have h := C4_forms_agree toyCrypto oPlain stPlain rfl rfl
  exact ⟨h.1 true [1] [2] [3], h.2 true tokP (by decide) (by decide)⟩
